import Mathlib

/-!
Verification of the P2P file-sharing peer (`hybrid_peer.py`) and its tracker
(`server.py`): a shallow embedding of the chunk codec, the chunk server's
request handler, the downloader's response framing, the availability index,
the download planner, the retry pass, the assembly/verification step, and the
tracker's peer registration, together with theorems about them.

Modelling conventions:
- bytes are `Nat` (values 0..255 in practice), byte strings are `List Nat`;
- a hosted file is represented by its contents (`List Nat`); the on-disk size
  is its length;
- Python `int` is `Int`; Python `int(s)` parsing is `parseInt` below;
- `random.choice` is modelled by an arbitrary index oracle `pick`; the chosen
  element is `l[pick % l.length]`, which covers every choice the code can make;
- socket replies are captured by the `Reply` type: `silent` (connection closed
  without sending anything), `error` (an ASCII error string, no framing), and
  `framed` (a 4-byte big-endian size followed by the payload); `wireBytes`
  gives the exact bytes written to the socket in each case;
- the SHA-1 digest is an abstract parameter `hashFn : List Nat → String`
  wherever the code only compares digests;
- `f.seek(offset)` with a negative offset raises `OSError` in Python; the
  handler's `except` clause then sends `ERROR: Server error`. The embedding
  makes this control flow explicit with an `offset < 0` test.
-/

/-- `CHUNK_SIZE = 1024 * 1024` from `hybrid_peer.py`. -/
def CHUNK_SIZE : Nat := 1024 * 1024

/-- `num_chunks = (file_size + CHUNK_SIZE - 1) // CHUNK_SIZE` as computed by
`get_file_info` in `hybrid_peer.py` (sharing side). -/
def get_file_info_num_chunks (file_size : Nat) : Nat :=
  (file_size + CHUNK_SIZE - 1) / CHUNK_SIZE

/-- The same formula as recomputed by the download branch of `main`
(`num_chunks = (file_size + CHUNK_SIZE - 1) // CHUNK_SIZE`). -/
def download_num_chunks (file_size : Nat) : Nat :=
  (file_size + CHUNK_SIZE - 1) / CHUNK_SIZE

/-- The same formula as recomputed by `handle_peer_connection` on the server
from the file's current on-disk size. -/
def server_num_chunks (file_size : Nat) : Nat :=
  (file_size + CHUNK_SIZE - 1) / CHUNK_SIZE

/-- Big-endian 4-byte encoding, `len(chunk_data).to_bytes(4, byteorder='big')`. -/
def toBE4 (n : Nat) : List Nat :=
  [n / 2 ^ 24 % 256, n / 2 ^ 16 % 256, n / 2 ^ 8 % 256, n % 256]

/-- `int.from_bytes(bs, byteorder='big')`. -/
def int_from_bytes_be (bs : List Nat) : Nat :=
  bs.foldl (fun acc b => acc * 256 + b) 0

/-- ASCII bytes of a string (error replies are ASCII text). -/
def strBytes (s : String) : List Nat :=
  s.toList.map Char.toNat

/-- What the server sends back on one connection before closing it. -/
inductive Reply where
  | silent : Reply
  | error : String → Reply
  | framed : List Nat → Reply
deriving DecidableEq

/-- The exact bytes a `Reply` puts on the wire: nothing, the bare error text,
or the 4-byte big-endian size followed by the payload. -/
def wireBytes : Reply → List Nat
  | .silent => []
  | .error msg => strBytes msg
  | .framed payload => toBE4 payload.length ++ payload

def digitVal (c : Char) : Option Nat :=
  if c.isDigit then some (c.toNat - 48) else none

def parseNatDigits (cs : List Char) : Option Nat :=
  match cs with
  | [] => none
  | _ =>
    cs.foldl
      (fun acc c =>
        match acc, digitVal c with
        | some n, some d => some (n * 10 + d)
        | _, _ => none)
      (some 0)

/-- Python `int(s)` on a whitespace-free token: an optional sign followed by
decimal digits; anything else raises `ValueError` (`none` here). -/
def parseInt (s : String) : Option Int :=
  match s.toList with
  | '-' :: rest => (parseNatDigits rest).map (fun n => -(n : Int))
  | '+' :: rest => (parseNatDigits rest).map (fun n => (n : Int))
  | cs => (parseNatDigits cs).map (fun n => (n : Int))

/-- Look up a hosted file's contents by hash
(`hosted_files[file_hash]`, with `file_hash not in hosted_files` as `none`). -/
def hostedLookup (hosted_files : List (String × List Nat)) (h : String) :
    Option (List Nat) :=
  (hosted_files.find? (fun e => e.1 == h)).map (·.2)

/-- `handle_peer_connection` from `hybrid_peer.py`, as a function from the
request tokens (`conn.recv(1024).decode().strip().split()`) and the hosted
table to the reply. Control flow follows the source:
a request that is not three tokens starting with `GET_CHUNK` is logged and
dropped with no reply (`return`); `int(req[2])` failing raises, caught by the
handler's `except` which sends `ERROR: Server error`; an unknown hash sends
`ERROR: File not found`; `chunk_id >= num_chunks` sends
`ERROR: Chunk out of range`; a negative `chunk_id` passes that test but makes
`f.seek(offset)` raise, again producing `ERROR: Server error`; otherwise the
server reads `CHUNK_SIZE` bytes at `chunk_id * CHUNK_SIZE` and sends them
framed. -/
def handle_peer_connection (req : List String)
    (hosted_files : List (String × List Nat)) : Reply :=
  match req with
  | [cmd, file_hash, chunk_str] =>
    if cmd ≠ "GET_CHUNK" then .silent
    else
      match parseInt chunk_str with
      | none => .error "ERROR: Server error"
      | some chunk_id =>
        match hostedLookup hosted_files file_hash with
        | none => .error "ERROR: File not found"
        | some file =>
          let file_size := file.length
          let num_chunks := server_num_chunks file_size
          if (num_chunks : Int) ≤ chunk_id then .error "ERROR: Chunk out of range"
          else
            let offset := chunk_id * (CHUNK_SIZE : Int)
            if offset < 0 then .error "ERROR: Server error"
            else .framed ((file.drop offset.toNat).take CHUNK_SIZE)
  | _ => .silent

/-- The response-processing part of `download_chunk` in `hybrid_peer.py`,
as a function of the whole byte stream received on the socket before the
server closed it: read 4 size bytes (fewer than 4 available means failure),
decode them big-endian, then read exactly that many payload bytes; if the
stream ends short, the result is discarded (`None`). -/
def download_chunk (stream : List Nat) : Option (List Nat) :=
  if stream.length < 4 then none
  else
    let size_bytes := stream.take 4
    let chunk_size := int_from_bytes_be size_bytes
    let data := (stream.drop 4).take chunk_size
    if data.length ≠ chunk_size then none else some data

/-- The `(ip, port)` pair stored per peer in the availability map
(`peer_info = {"ip": ..., "port": ...}`). -/
structure Peer where
  ip : String
  port : Int
deriving DecidableEq

/-- A peer entry as returned by the tracker lookup: `{ip, port, chunks}`.
Chunk ids arrive as arbitrary JSON integers, hence `List Int`. -/
structure PeerAd where
  ip : String
  port : Int
  chunks : List Int
deriving DecidableEq

def peerInfo (p : PeerAd) : Peer := ⟨p.ip, p.port⟩

/-- The empty `defaultdict(list)`, viewed as a total function from chunk id to
candidate list; a key is absent exactly when its list is `[]` (every insertion
appends, so present keys always have non-empty lists). -/
def emptyAvail : Int → List Peer := fun _ => []

/-- `chunk_availability[chunk_id].append(peer_info)`. -/
def availAppend (m : Int → List Peer) (cid : Int) (p : Peer) : Int → List Peer :=
  fun c => if c = cid then m c ++ [p] else m c

/-- The inner loop of `build_chunk_availability_map`: for each advertised
chunk id of one peer, append the peer if `chunk_id < num_chunks`. -/
def addPeerChunks (m : Int → List Peer) (p : PeerAd) (num_chunks : Nat) :
    Int → List Peer :=
  p.chunks.foldl
    (fun m' cid => if cid < (num_chunks : Int) then availAppend m' cid (peerInfo p) else m')
    m

/-- `build_chunk_availability_map(peers, num_chunks)` from `hybrid_peer.py`. -/
def build_chunk_availability_map (peers : List PeerAd) (num_chunks : Nat) :
    Int → List Peer :=
  peers.foldl (fun m p => addPeerChunks m p num_chunks) emptyAvail

/-- `create_download_plan(chunk_availability, num_chunks)` from
`hybrid_peer.py`, with `random.choice` modelled by the index oracle `pick`:
for each `chunk_id in range(num_chunks)`, skip it if its candidate list is
empty (`continue`; `l[i]?` is `none` exactly then), otherwise emit one task
`(selected_peer, chunk_id)`. -/
def create_download_plan (chunk_availability : Int → List Peer)
    (num_chunks : Nat) (pick : Nat → Nat) : List (Peer × Nat) :=
  (List.range num_chunks).foldl
    (fun tasks cid =>
      let available_peers := chunk_availability (Int.ofNat cid)
      match available_peers[pick cid % available_peers.length]? with
      | none => tasks
      | some p => tasks ++ [(p, cid)])
    []

/-- The inner loop of the retry pass in `main` (`hybrid_peer.py`): walk the
chunk's candidate list in order, call `download_chunk` on each
(`fetch1 p` is its result for peer `p`), and stop at the first truthy result
(`if data:` — `None` and `b""` are both falsy). Returns the data that fills
the slot, or `none` if every candidate fails. -/
def retry_chunk (peers : List Peer) (fetch1 : Peer → Option (List Nat)) :
    Option (List Nat) :=
  match peers with
  | [] => none
  | p :: rest =>
    match fetch1 p with
    | some d => if d.isEmpty then retry_chunk rest fetch1 else some d
    | none => retry_chunk rest fetch1

/-- The whole retry pass: for each failed chunk id, run the candidate loop and
write the slot on success (`output_chunks[chunk_id] = data`), leaving it
untouched otherwise. `slots` is `output_chunks`. -/
def retry_pass (failed_chunks : List Nat) (chunk_availability : Int → List Peer)
    (fetch : Peer → Nat → Option (List Nat)) (slots : List (Option (List Nat))) :
    List (Option (List Nat)) :=
  failed_chunks.foldl
    (fun sl chunk_id =>
      match retry_chunk (chunk_availability (Int.ofNat chunk_id)) (fun p => fetch p chunk_id) with
      | some d => sl.set chunk_id (some d)
      | none => sl)
    slots

/-- Whether `download_chunk`'s result for a peer is truthy (`if data:`). -/
def fetchGood (fetch1 : Peer → Option (List Nat)) (p : Peer) : Bool :=
  match fetch1 p with
  | some d => !d.isEmpty
  | none => false

/-- The client-side filesystem as a path → contents association list. -/
abbrev FileSystem := List (String × List Nat)

/-- Read a file's contents, `none` if the path does not exist. -/
def fsRead (fs : FileSystem) (path : String) : Option (List Nat) :=
  (fs.find? (fun e => e.1 == path)).map (·.2)

/-- `os.remove(path)`. -/
def fsRemove (fs : FileSystem) (path : String) : FileSystem :=
  fs.filter (fun e => e.1 != path)

/-- `open(path, "wb")` followed by writing `contents`: the path now maps to
exactly `contents`, any previous file at the path is gone. -/
def fsWrite (fs : FileSystem) (path : String) (contents : List Nat) : FileSystem :=
  (path, contents) :: fsRemove fs path

/-- Terminal states of a download (§ spec): some chunks missing, hash
mismatch with the file deleted, or verified complete. -/
inductive DownloadResult where
  | incomplete : List Nat → DownloadResult
  | corruptDiscarded : DownloadResult
  | complete : DownloadResult
deriving DecidableEq

/-- The tail of the download branch of `main` in `hybrid_peer.py`, from the
missing-chunk check onward: if any slot is `None`, report the missing ids and
write nothing; otherwise concatenate the slots in order, write the output
file, re-hash the written file (`hashFn` abstracts the streamed SHA-1), and
on mismatch delete it (`os.remove`). Returns the filesystem afterwards and
the outcome. -/
def finalize_download (hashFn : List Nat → String) (fs : FileSystem)
    (output_file : String) (file_hash : String)
    (output_chunks : List (Option (List Nat))) : FileSystem × DownloadResult :=
  if output_chunks.contains none then
    (fs, .incomplete ((List.range output_chunks.length).filter
      (fun i => output_chunks[i]? = some none)))
  else
    let contents := (output_chunks.map (fun c => c.getD [])).flatten
    let fs1 := fsWrite fs output_file contents
    let downloaded_hash := hashFn ((fsRead fs1 output_file).getD [])
    if downloaded_hash ≠ file_hash then (fsRemove fs1 output_file, .corruptDiscarded)
    else (fs1, .complete)

/-- One peer entry in the tracker registry: `{ip, port, chunks}`. -/
structure TrackerPeer where
  ip : String
  port : Int
  chunks : List Int
deriving DecidableEq

/-- One file entry in the tracker registry. -/
structure FileEntry where
  file_name : String
  file_size : Int
  peers : List TrackerPeer
deriving DecidableEq

/-- The tracker's `files` dict, as a hash → entry association list. -/
abbrev Registry := List (String × FileEntry)

def regLookup (files : Registry) (h : String) : Option FileEntry :=
  (files.find? (fun e => e.1 == h)).map (·.2)

/-- In-place update of `files[h]` (the key is already present). -/
def regSet (files : Registry) (h : String) (e : FileEntry) : Registry :=
  files.map (fun kv => if kv.1 == h then (kv.1, e) else kv)

/-- The body of a `POST /register` request (`server.py`); the required-field
check always passes for a structurally well-formed body. -/
structure RegisterRequest where
  file_name : String
  file_hash : String
  file_size : Int
  chunks : List Int
  ip : String
  port : Int

/-- `existing_peer["chunks"] = peer_info["chunks"]`: mutate the first peer
with matching `(ip, port)` in place, keeping everything else. -/
def updateFirstPeer (peers : List TrackerPeer) (ip : String) (port : Int)
    (chunks : List Int) : List TrackerPeer :=
  match peers with
  | [] => []
  | p :: rest =>
    if p.ip == ip && p.port == port then { p with chunks := chunks } :: rest
    else p :: updateFirstPeer rest ip port chunks

/-- `register` from `server.py`: create the file entry if the hash is new,
then either update the existing peer with the same `(ip, port)` in place or
append a new peer entry. Returns the new registry, the response message and
`peers_count`. -/
def register (files : Registry) (req : RegisterRequest) :
    Registry × String × Nat :=
  let files1 :=
    if (regLookup files req.file_hash).isNone then
      files ++ [(req.file_hash, ⟨req.file_name, req.file_size, []⟩)]
    else files
  let entry := (regLookup files1 req.file_hash).getD ⟨req.file_name, req.file_size, []⟩
  let peer_info : TrackerPeer := ⟨req.ip, req.port, req.chunks⟩
  match entry.peers.find? (fun p => p.ip == req.ip && p.port == req.port) with
  | some _ =>
    let newPeers := updateFirstPeer entry.peers req.ip req.port req.chunks
    (regSet files1 req.file_hash { entry with peers := newPeers },
      "Peer updated successfully", newPeers.length)
  | none =>
    let newPeers := entry.peers ++ [peer_info]
    (regSet files1 req.file_hash { entry with peers := newPeers },
      "Peer registered successfully", newPeers.length)

/-! ## Chunk codec: chunk count and byte ranges (C3) -/

lemma num_chunks_bounds (S : Nat) :
    S ≤ get_file_info_num_chunks S * CHUNK_SIZE ∧
    get_file_info_num_chunks S * CHUNK_SIZE < S + CHUNK_SIZE := by
  unfold get_file_info_num_chunks CHUNK_SIZE
  omega

lemma num_chunks_eq_ceil (S : Nat) :
    (get_file_info_num_chunks S : Int) = ⌈(S : ℚ) / (CHUNK_SIZE : ℚ)⌉ := by
  obtain ⟨h1, h2⟩ := num_chunks_bounds S
  have hCS : (0 : ℚ) < (CHUNK_SIZE : ℚ) := by norm_num [CHUNK_SIZE]
  symm
  rw [Int.ceil_eq_iff]
  constructor
  · rw [lt_div_iff₀ hCS]
    have h2' : ((get_file_info_num_chunks S : ℚ)) * (CHUNK_SIZE : ℚ)
        < (S : ℚ) + (CHUNK_SIZE : ℚ) := by exact_mod_cast h2
    push_cast
    linarith
  · rw [div_le_iff₀ hCS]
    push_cast
    exact_mod_cast h1

/-- C3: for every file size `S`, the chunk count computed by the sharing side
(`get_file_info`), the downloading side and the server agree and equal
`ceil(S / CHUNK_SIZE)`, and the byte ranges
`[id*CHUNK_SIZE, min((id+1)*CHUNK_SIZE, S))` for `id < chunkCount` partition
`[0, S)` exactly: every offset `x < S` lies in exactly one chunk's range. -/
theorem chunk_count_and_ranges (S : Nat) :
    get_file_info_num_chunks S = download_num_chunks S
    ∧ get_file_info_num_chunks S = server_num_chunks S
    ∧ (get_file_info_num_chunks S : Int) = ⌈(S : ℚ) / (CHUNK_SIZE : ℚ)⌉
    ∧ ∀ x, x < S →
        ∃! id, id < get_file_info_num_chunks S
          ∧ id * CHUNK_SIZE ≤ x ∧ x < min ((id + 1) * CHUNK_SIZE) S := by
  refine ⟨rfl, rfl, num_chunks_eq_ceil S, ?_⟩
  intro x hx
  refine ⟨x / CHUNK_SIZE, ?_, ?_⟩
  · unfold get_file_info_num_chunks CHUNK_SIZE at *
    omega
  · intro y hy
    unfold get_file_info_num_chunks CHUNK_SIZE at *
    omega

/-- Witness for C3 at `S = 3`, `x = 2`. -/
theorem chunk_count_and_ranges_witness :
    (get_file_info_num_chunks 3 : Int) = ⌈(3 : ℚ) / (CHUNK_SIZE : ℚ)⌉
    ∧ ∃! id, id < get_file_info_num_chunks 3
        ∧ id * CHUNK_SIZE ≤ 2 ∧ 2 < min ((id + 1) * CHUNK_SIZE) 3 :=
  ⟨(chunk_count_and_ranges 3).2.2.1, (chunk_count_and_ranges 3).2.2.2 2 (by norm_num)⟩

/-! ## Availability index (C5) -/

/-- The per-chunk contribution of one peer advertisement: one copy of the
peer for each advertised occurrence of `cid` that passes the
`chunk_id < num_chunks` test. -/
def peerContribution (n : Nat) (cid : Int) (p : PeerAd) : List Peer :=
  (p.chunks.filter (fun c => decide (c = cid ∧ c < (n : Int)))).map (fun _ => peerInfo p)

lemma chunksFold_apply (info : Peer) (n : Nat) (cs : List Int)
    (m : Int → List Peer) (cid : Int) :
    (cs.foldl (fun m' c => if c < (n : Int) then availAppend m' c info else m') m) cid
      = m cid ++ (cs.filter (fun c => decide (c = cid ∧ c < (n : Int)))).map
          (fun _ => info) := by
  induction cs generalizing m with
  | nil => simp
  | cons c rest ih =>
    rw [List.foldl_cons, ih]
    by_cases hlt : c < (n : Int)
    · by_cases hc : c = cid
      · subst hc
        simp [availAppend, hlt, List.filter_cons]
      · simp [availAppend, hc, Ne.symm hc, hlt, List.filter_cons]
    · simp [hlt, List.filter_cons]

lemma addPeerChunks_apply (m : Int → List Peer) (p : PeerAd) (n : Nat) (cid : Int) :
    addPeerChunks m p n cid = m cid ++ peerContribution n cid p :=
  chunksFold_apply (peerInfo p) n p.chunks m cid

lemma buildFold_apply (peers : List PeerAd) (n : Nat) (m : Int → List Peer) (cid : Int) :
    (peers.foldl (fun m' p => addPeerChunks m' p n) m) cid
      = m cid ++ peers.flatMap (peerContribution n cid) := by
  induction peers generalizing m with
  | nil => simp
  | cons p rest ih =>
    rw [List.foldl_cons, ih, addPeerChunks_apply]
    simp [List.flatMap_cons]

/-- C5, counterexample to the claim as stated: the code only checks
`chunk_id < num_chunks`, so a negative advertised chunk id — which is outside
`[0, chunkCount)` — is NOT dropped: a peer advertising chunk `-1` for a
4-chunk file ends up in the map under the key `-1`, so the map does contain
an out-of-range key. -/
theorem build_chunk_availability_map_keeps_negative_key :
    build_chunk_availability_map [⟨"10.0.0.5", 7000, [-1]⟩] 4 (-1)
      = [⟨"10.0.0.5", 7000⟩] := by
  decide

/-- C5, amended: `build_chunk_availability_map` appends, for each peer in
input order and each advertised occurrence of a chunk id with
`chunk_id < chunkCount` (including negative ids), that peer to the chunk's
candidate list, preserving peer order; every advertised chunk id
`≥ chunkCount` is silently dropped, so the map has no key `≥ chunkCount`
(but may have negative keys). -/
theorem build_chunk_availability_map_spec (peers : List PeerAd) (n : Nat) (cid : Int) :
    build_chunk_availability_map peers n cid = peers.flatMap (peerContribution n cid)
    ∧ ((n : Int) ≤ cid → build_chunk_availability_map peers n cid = []) := by
  have hb := buildFold_apply peers n emptyAvail cid
  constructor
  · simpa [build_chunk_availability_map, emptyAvail] using hb
  · intro hge
    rw [build_chunk_availability_map, hb]
    simp only [emptyAvail, List.nil_append]
    rw [List.flatMap_eq_nil_iff]
    intro p _
    unfold peerContribution
    rw [List.map_eq_nil_iff, List.filter_eq_nil_iff]
    intro c _ hc
    rw [decide_eq_true_iff] at hc
    omega

/-- Witness for C5 at a concrete out-of-range key. -/
theorem build_chunk_availability_map_spec_witness :
    build_chunk_availability_map [⟨"10.0.0.5", 7000, [0, 9]⟩] 2 9 = [] :=
  (build_chunk_availability_map_spec [⟨"10.0.0.5", 7000, [0, 9]⟩] 2 9).2 (by norm_num)

/-! ## Download planner (C1, and the plan half of C8) -/

/-- The task `create_download_plan` emits for one chunk id: `none` when the
candidate list is empty (the `continue` branch), otherwise the chosen peer
paired with the chunk id. -/
def planChoice (chunk_availability : Int → List Peer) (pick : Nat → Nat) (cid : Nat) :
    Option (Peer × Nat) :=
  ((chunk_availability (Int.ofNat cid))[pick cid % (chunk_availability (Int.ofNat cid)).length]?).map
    (fun p => (p, cid))

lemma foldl_opt_append {α β : Type} (g : α → Option β) (l : List α) (init : List β) :
    l.foldl (fun acc x => acc ++ (g x).toList) init = init ++ l.filterMap g := by
  induction l generalizing init with
  | nil => simp
  | cons x xs ih =>
    rw [List.foldl_cons, ih, List.filterMap_cons]
    cases hg : g x with
    | none => simp
    | some t => simp

lemma create_download_plan_eq (avail : Int → List Peer) (n : Nat) (pick : Nat → Nat) :
    create_download_plan avail n pick = (List.range n).filterMap (planChoice avail pick) := by
  unfold create_download_plan
  have hbody : (fun (tasks : List (Peer × Nat)) (cid : Nat) =>
      match (avail (Int.ofNat cid))[pick cid % (avail (Int.ofNat cid)).length]? with
      | none => tasks
      | some p => tasks ++ [(p, cid)])
      = fun acc x => acc ++ (planChoice avail pick x).toList := by
    funext acc x
    unfold planChoice
    cases hx : (avail (Int.ofNat x))[pick x % (avail (Int.ofNat x)).length]? <;> simp [hx]
  rw [hbody, foldl_opt_append (planChoice avail pick) (List.range n) [],
    List.nil_append]

lemma planChoice_isSome (avail : Int → List Peer) (pick : Nat → Nat) (cid : Nat) :
    (planChoice avail pick cid).isSome ↔ avail (Int.ofNat cid) ≠ [] := by
  unfold planChoice
  rw [Option.isSome_map']
  constructor
  · intro h hnil
    rw [hnil] at h
    simp at h
  · intro h
    have hlen : 0 < (avail (Int.ofNat cid)).length := List.length_pos.mpr h
    rw [List.getElem?_eq_getElem (Nat.mod_lt (pick cid) hlen)]
    rfl

lemma planChoice_snd (avail : Int → List Peer) (pick : Nat → Nat) (cid : Nat)
    (t : Peer × Nat) (h : planChoice avail pick cid = some t) : t.2 = cid := by
  unfold planChoice at h
  cases hx : (avail (Int.ofNat cid))[pick cid % (avail (Int.ofNat cid)).length]? with
  | none => rw [hx] at h; simp at h
  | some p => rw [hx] at h; simp at h; rw [← h]

lemma plan_mem (avail : Int → List Peer) (n : Nat) (pick : Nat → Nat)
    (t : Peer × Nat) (h : t ∈ create_download_plan avail n pick) :
    t.2 < n ∧ t.1 ∈ avail (Int.ofNat t.2) := by
  rw [create_download_plan_eq] at h
  obtain ⟨c, hc, hgc⟩ := List.mem_filterMap.mp h
  have hc2 : t.2 = c := planChoice_snd avail pick c t hgc
  unfold planChoice at hgc
  cases hx : (avail (Int.ofNat c))[pick c % (avail (Int.ofNat c)).length]? with
  | none => rw [hx] at hgc; simp at hgc
  | some p =>
    rw [hx] at hgc
    simp at hgc
    refine ⟨hc2 ▸ List.mem_range.mp hc, ?_⟩
    rw [hc2, ← hgc]
    exact List.getElem?_mem hx

lemma plan_filter_length (avail : Int → List Peer) (pick : Nat → Nat)
    (l : List Nat) (hl : l.Nodup) (cid : Nat) :
    ((l.filterMap (planChoice avail pick)).filter (fun t => t.2 == cid)).length
      = if cid ∈ l ∧ (planChoice avail pick cid).isSome then 1 else 0 := by
  induction l with
  | nil => simp
  | cons c cs ih =>
    obtain ⟨hc, hcs⟩ := List.nodup_cons.mp hl
    rw [List.filterMap_cons]
    cases hgc : planChoice avail pick c with
    | none =>
      rw [ih hcs]
      by_cases heq : cid = c
      · subst heq
        simp [hgc, hc]
      · simp [List.mem_cons, heq]
    | some t =>
      have ht2 : t.2 = c := planChoice_snd avail pick c t hgc
      rw [List.filter_cons]
      by_cases heq : cid = c
      · subst heq
        have htrue : (t.2 == cid) = true := by rw [ht2]; simp
        rw [if_pos htrue, List.length_cons, ih hcs]
        simp [hc, hgc]
      · rw [if_neg (by simp [ht2, Ne.symm heq]), ih hcs]
        simp [List.mem_cons, heq]

/-- C1: for every availability map, chunk count and random choice,
`create_download_plan` emits exactly one task for each chunk id in
`[0, chunkCount)` whose candidate list is non-empty — and that task's peer is
one of the chunk's candidates — and no task at all for a chunk id with an
empty candidate list; in particular no chunk id appears in two tasks. -/
theorem create_download_plan_one_task_per_chunk (avail : Int → List Peer)
    (n : Nat) (pick : Nat → Nat) (cid : Nat) :
    ((create_download_plan avail n pick).filter (fun t => t.2 == cid)).length
        = (if cid < n ∧ avail (Int.ofNat cid) ≠ [] then 1 else 0)
    ∧ ∀ t ∈ create_download_plan avail n pick, t.2 = cid →
        t.1 ∈ avail (Int.ofNat cid) := by
  constructor
  · rw [create_download_plan_eq,
      plan_filter_length avail pick _ (List.nodup_range n) cid]
    by_cases h : cid < n ∧ avail (Int.ofNat cid) ≠ []
    · rw [if_pos h, if_pos ⟨List.mem_range.mpr h.1,
        (planChoice_isSome avail pick cid).mpr h.2⟩]
    · rw [if_neg h, if_neg]
      intro hmem
      exact h ⟨List.mem_range.mp hmem.1, (planChoice_isSome avail pick cid).mp hmem.2⟩
  · intro t ht ht2
    have hm := plan_mem avail n pick t ht
    rw [← ht2]
    exact hm.2

/-- Witness for C1: one peer advertising the single chunk of a one-chunk file
yields exactly one task for chunk 0, assigned to that peer. -/
theorem create_download_plan_witness :
    (((create_download_plan (fun _ => [⟨"10.0.0.1", 6000⟩]) 1 (fun _ => 0)).filter
        (fun t => t.2 == 0)).length = 1)
    ∧ ∀ t ∈ create_download_plan (fun _ => [⟨"10.0.0.1", 6000⟩]) 1 (fun _ => 0),
        t.2 = 0 → t.1 ∈ [(⟨"10.0.0.1", 6000⟩ : Peer)] := by
  have h := create_download_plan_one_task_per_chunk
    (fun _ => [⟨"10.0.0.1", 6000⟩]) 1 (fun _ => 0) 0
  exact ⟨h.1.trans (by decide), h.2⟩

/-! ## Chunk server request handling (C2, C4, C8, C10) -/

/-- C2, counterexample to the claim as stated: on a request whose command is
not `GET_CHUNK` the server does NOT reply with an `ERROR: ...` message — it
logs and closes the connection having sent nothing at all (the code path is
`print(...); return`, with no `sendall`). -/
theorem handle_bad_command_sends_nothing :
    wireBytes (handle_peer_connection ["HELLO", "somehash", "0"] []) = [] := by
  decide

lemma handle_not_three_tokens (req : List String)
    (hosted : List (String × List Nat)) (hlen : req.length ≠ 3) :
    handle_peer_connection req hosted = .silent := by
  match req with
  | [] => rfl
  | [a] => rfl
  | [a, b] => rfl
  | [a, b, c] => exact absurd rfl hlen
  | a :: b :: c :: d :: rest => rfl

lemma handle_wrong_command (cmd h cs : String)
    (hosted : List (String × List Nat)) (hcmd : cmd ≠ "GET_CHUNK") :
    handle_peer_connection [cmd, h, cs] hosted = .silent := by
  simp only [handle_peer_connection]
  rw [if_pos hcmd]

lemma handle_unknown_hash (h cs : String) (cid : Int)
    (hosted : List (String × List Nat)) (hparse : parseInt cs = some cid)
    (hmiss : hostedLookup hosted h = none) :
    handle_peer_connection ["GET_CHUNK", h, cs] hosted
      = .error "ERROR: File not found" := by
  simp only [handle_peer_connection]
  rw [if_neg (by simp)]
  simp only [hparse, hmiss]

lemma handle_chunk_out_of_range (h cs : String) (cid : Int)
    (hosted : List (String × List Nat)) (file : List Nat)
    (hparse : parseInt cs = some cid)
    (hfile : hostedLookup hosted h = some file)
    (hbig : (server_num_chunks file.length : Int) ≤ cid) :
    handle_peer_connection ["GET_CHUNK", h, cs] hosted
      = .error "ERROR: Chunk out of range" := by
  simp only [handle_peer_connection]
  rw [if_neg (by simp)]
  simp only [hparse, hfile]
  simp only [if_pos hbig]

lemma handle_negative_chunk (h cs : String) (cid : Int)
    (hosted : List (String × List Nat)) (file : List Nat)
    (hparse : parseInt cs = some cid)
    (hfile : hostedLookup hosted h = some file)
    (hneg : cid < 0) :
    handle_peer_connection ["GET_CHUNK", h, cs] hosted
      = .error "ERROR: Server error" := by
  simp only [handle_peer_connection]
  rw [if_neg (by simp)]
  simp only [hparse, hfile]
  have hlt : ¬ (server_num_chunks file.length : Int) ≤ cid := by
    have : (0 : Int) ≤ (server_num_chunks file.length : Int) := Int.natCast_nonneg _
    omega
  rw [if_neg hlt]
  have hoff : cid * (CHUNK_SIZE : Int) < 0 := by
    have : (0 : Int) < (CHUNK_SIZE : Int) := by norm_num [CHUNK_SIZE]
    exact mul_neg_of_neg_of_pos hneg this
  simp only [if_pos hoff]

lemma handle_valid_chunk (h cs : String) (cid : Nat)
    (hosted : List (String × List Nat)) (file : List Nat)
    (hparse : parseInt cs = some (cid : Int))
    (hfile : hostedLookup hosted h = some file)
    (hlt : cid < server_num_chunks file.length) :
    handle_peer_connection ["GET_CHUNK", h, cs] hosted
      = .framed ((file.drop (cid * CHUNK_SIZE)).take CHUNK_SIZE) := by
  simp only [handle_peer_connection]
  rw [if_neg (by simp)]
  simp only [hparse, hfile]
  rw [if_neg (by exact_mod_cast Nat.not_le.mpr hlt)]
  rw [if_neg (not_lt.mpr (by positivity))]
  congr 1

lemma int_from_bytes_be_toBE4 (m : Nat) (hm : m < 2 ^ 32) :
    int_from_bytes_be (toBE4 m) = m := by
  unfold int_from_bytes_be toBE4
  simp only [List.foldl_cons, List.foldl_nil]
  omega

/-- C2, amended: a request that is not exactly three tokens, or whose command
is not `GET_CHUNK`, is dropped with the connection closed and nothing sent at
all (no `ERROR` text either); an unknown content hash gets the text
`ERROR: File not found`; a chunk id `≥ chunkCount` for the file's current
on-disk size gets `ERROR: Chunk out of range`; and an error reply is never a
framed reply — its wire bytes are the bare ASCII text with no 4-byte length
header. -/
theorem handle_rejection_replies (hosted : List (String × List Nat))
    (req : List String) (cmd h cs : String) (cid : Int) (file : List Nat) :
    (req.length ≠ 3 → handle_peer_connection req hosted = .silent)
    ∧ (cmd ≠ "GET_CHUNK" → handle_peer_connection [cmd, h, cs] hosted = .silent)
    ∧ (parseInt cs = some cid → hostedLookup hosted h = none →
        handle_peer_connection ["GET_CHUNK", h, cs] hosted
          = .error "ERROR: File not found")
    ∧ (parseInt cs = some cid → hostedLookup hosted h = some file →
        (server_num_chunks file.length : Int) ≤ cid →
        handle_peer_connection ["GET_CHUNK", h, cs] hosted
          = .error "ERROR: Chunk out of range")
    ∧ (∀ msg payload, Reply.error msg ≠ .framed payload
        ∧ wireBytes (.error msg) = strBytes msg) := by
  refine ⟨handle_not_three_tokens req hosted, handle_wrong_command cmd h cs hosted,
    handle_unknown_hash h cs cid hosted,
    handle_chunk_out_of_range h cs cid hosted file, ?_⟩
  intro msg payload
  exact ⟨by simp, rfl⟩

/-- Witness for C2 (amended) on concrete requests. -/
theorem handle_rejection_replies_witness :
    handle_peer_connection ["PING", "h", "0"] [("h", [1, 2])] = .silent
    ∧ handle_peer_connection ["GET_CHUNK", "nope", "0"] [("h", [1, 2])]
        = .error "ERROR: File not found"
    ∧ handle_peer_connection ["GET_CHUNK", "h", "5"] [("h", [1, 2])]
        = .error "ERROR: Chunk out of range" :=
  ⟨(handle_rejection_replies [("h", [1, 2])] [] "PING" "h" "0" 0 [1, 2]).2.1
      (by decide),
    (handle_rejection_replies [("h", [1, 2])] [] "PING" "nope" "0" 0 [1, 2]).2.2.1
      (by decide) (by decide),
    (handle_rejection_replies [("h", [1, 2])] [] "PING" "h" "5" 5 [1, 2]).2.2.2.1
      (by decide) (by decide) (by decide)⟩

/-- C4: for every valid `GET_CHUNK` request (known hash, chunk id in
`[0, chunkCount)` for the file's size), the reply is framed: a 4-byte
unsigned big-endian length header that decodes back to the payload length,
followed by exactly the file's bytes in
`[chunkId*CHUNK_SIZE, min((chunkId+1)*CHUNK_SIZE, size))`; the payload is a
full `CHUNK_SIZE` for every chunk but possibly the last. -/
theorem handle_valid_get_chunk_response (hosted : List (String × List Nat))
    (h cs : String) (cid : Nat) (file : List Nat)
    (hparse : parseInt cs = some (cid : Int))
    (hfile : hostedLookup hosted h = some file)
    (hlt : cid < server_num_chunks file.length) :
    handle_peer_connection ["GET_CHUNK", h, cs] hosted
        = .framed ((file.drop (cid * CHUNK_SIZE)).take CHUNK_SIZE)
    ∧ wireBytes (handle_peer_connection ["GET_CHUNK", h, cs] hosted)
        = toBE4 ((file.drop (cid * CHUNK_SIZE)).take CHUNK_SIZE).length
            ++ (file.drop (cid * CHUNK_SIZE)).take CHUNK_SIZE
    ∧ (toBE4 ((file.drop (cid * CHUNK_SIZE)).take CHUNK_SIZE).length).length = 4
    ∧ int_from_bytes_be (toBE4 ((file.drop (cid * CHUNK_SIZE)).take CHUNK_SIZE).length)
        = ((file.drop (cid * CHUNK_SIZE)).take CHUNK_SIZE).length
    ∧ (file.drop (cid * CHUNK_SIZE)).take CHUNK_SIZE
        = (file.drop (cid * CHUNK_SIZE)).take
            (min ((cid + 1) * CHUNK_SIZE) file.length - cid * CHUNK_SIZE)
    ∧ ((file.drop (cid * CHUNK_SIZE)).take CHUNK_SIZE).length
        = min ((cid + 1) * CHUNK_SIZE) file.length - cid * CHUNK_SIZE
    ∧ (cid + 1 < server_num_chunks file.length →
        ((file.drop (cid * CHUNK_SIZE)).take CHUNK_SIZE).length = CHUNK_SIZE) := by
  have hplen : ((file.drop (cid * CHUNK_SIZE)).take CHUNK_SIZE).length
      = min CHUNK_SIZE (file.length - cid * CHUNK_SIZE) := by
    rw [List.length_take, List.length_drop]
  have hframe := handle_valid_chunk h cs cid hosted file hparse hfile hlt
  refine ⟨hframe, by rw [hframe]; rfl, rfl, ?_, ?_, ?_, ?_⟩
  · refine int_from_bytes_be_toBE4 _ (lt_of_le_of_lt ?_ (by norm_num [CHUNK_SIZE] :
      CHUNK_SIZE < 2 ^ 32))
    rw [hplen]
    exact min_le_left _ _
  · apply List.take_eq_take.mpr
    rw [List.length_drop]
    unfold server_num_chunks CHUNK_SIZE at *
    omega
  · rw [hplen]
    unfold server_num_chunks CHUNK_SIZE at *
    omega
  · intro hlast
    rw [hplen]
    unfold server_num_chunks CHUNK_SIZE at *
    omega

/-- Witness for C4: a 3-byte file served whole as chunk 0. -/
theorem handle_valid_get_chunk_response_witness :
    handle_peer_connection ["GET_CHUNK", "h", "0"] [("h", [10, 20, 30])]
      = .framed [10, 20, 30] :=
  ((handle_valid_get_chunk_response [("h", [10, 20, 30])] "h" "0" 0 [10, 20, 30]
    (by decide) (by decide) (by decide)).1).trans (by decide)

/-- C8: every task of a download plan has a chunk id below the chunk count
(and chunk ids are naturals, hence nonnegative); on the server, a framed
reply is only ever produced for a chunk id in `[0, chunkCount)`, and a
request whose chunk id is negative or `≥ chunkCount` gets an error reply —
the chunk id is never clamped into range. (A negative id passes the code's
`chunk_id >= num_chunks` test, but the resulting negative seek offset raises,
and the handler answers `ERROR: Server error`.) -/
theorem chunk_id_in_bounds (avail : Int → List Peer) (n : Nat) (pick : Nat → Nat)
    (t : Peer × Nat) (hosted : List (String × List Nat)) (h cs : String)
    (cid : Int) (file : List Nat) :
    (t ∈ create_download_plan avail n pick → t.2 < n)
    ∧ (∀ payload, parseInt cs = some cid → hostedLookup hosted h = some file →
        handle_peer_connection ["GET_CHUNK", h, cs] hosted = .framed payload →
        0 ≤ cid ∧ cid < (server_num_chunks file.length : Int))
    ∧ (parseInt cs = some cid → hostedLookup hosted h = some file →
        (cid < 0 ∨ (server_num_chunks file.length : Int) ≤ cid) →
        ∃ msg, handle_peer_connection ["GET_CHUNK", h, cs] hosted
          = .error msg) := by
  refine ⟨fun ht => (plan_mem avail n pick t ht).1, ?_, ?_⟩
  · intro payload hparse hfile hframe
    rcases lt_or_le cid 0 with hneg | hge0
    · rw [handle_negative_chunk h cs cid hosted file hparse hfile hneg] at hframe
      exact absurd hframe (by simp)
    · refine ⟨hge0, ?_⟩
      by_contra hbig
      push_neg at hbig
      rw [handle_chunk_out_of_range h cs cid hosted file hparse hfile hbig] at hframe
      exact absurd hframe (by simp)
  · intro hparse hfile hviol
    rcases hviol with hneg | hbig
    · exact ⟨_, handle_negative_chunk h cs cid hosted file hparse hfile hneg⟩
    · exact ⟨_, handle_chunk_out_of_range h cs cid hosted file hparse hfile hbig⟩

/-- Witness for C8: a negative chunk id on a known file draws an error reply. -/
theorem chunk_id_in_bounds_witness :
    ∃ msg, handle_peer_connection ["GET_CHUNK", "h", "-1"] [("h", [1, 2])]
      = .error msg :=
  (chunk_id_in_bounds (fun _ => []) 0 (fun _ => 0) (⟨"a", 1⟩, 0) [("h", [1, 2])]
    "h" "-1" (-1) [1, 2]).2.2 (by decide) (by decide) (Or.inl (by decide))

/-- C10, counterexample to the claim as stated: the first four bytes of every
server error reply are the ASCII of "ERRO", which decode as a big-endian
length to 1163022927 — not 1163088463 as the claim has it. -/
theorem error_reply_decode_value :
    int_from_bytes_be ((wireBytes (Reply.error "ERROR: File not found")).take 4)
        = 1163022927
    ∧ (1163022927 : Nat) ≠ 1163088463 := by
  decide

/-- C10, amended: for each of the three server error replies, the downloader
parses the first four bytes "ERRO" as the length 1163022927, which exceeds
the bytes remaining in the reply, so the payload read falls short and
`download_chunk` returns `None` instead of treating the text as chunk data. -/
theorem download_chunk_rejects_error_replies :
    ∀ msg ∈ ["ERROR: File not found", "ERROR: Chunk out of range",
        "ERROR: Server error"],
      download_chunk (wireBytes (Reply.error msg)) = none
      ∧ int_from_bytes_be ((wireBytes (Reply.error msg)).take 4) = 1163022927
      ∧ (wireBytes (Reply.error msg)).length - 4 < 1163022927 := by
  decide

/-- Witness for C10 at the `File not found` reply. -/
theorem download_chunk_rejects_error_replies_witness :
    download_chunk (wireBytes (Reply.error "ERROR: File not found")) = none
    ∧ int_from_bytes_be ((wireBytes (Reply.error "ERROR: File not found")).take 4)
        = 1163022927
    ∧ (wireBytes (Reply.error "ERROR: File not found")).length - 4 < 1163022927 :=
  download_chunk_rejects_error_replies "ERROR: File not found" (by decide)

/-! ## Retry pass (C6) -/

/-- Modelled from the spec's words, for comparison with the code: the claim's
retry candidate set is "each remaining candidate peer (those other than the
peer already tried in the primary pass)", walked the same way as the code's
retry loop. -/
def retry_chunk_remaining_only (primary : Peer) (peers : List Peer)
    (fetch1 : Peer → Option (List Nat)) : Option (List Nat) :=
  retry_chunk (peers.filter (fun p => p != primary)) fetch1

/-- C6, counterexample to the claim as stated: the code's retry loop walks
`chunk_availability.get(chunk_id, [])` — the FULL candidate list — so the
peer already tried (and failed, e.g. by timeout) in the primary pass is tried
again. With a single candidate that is exactly the primary-pass peer, the
code fills the slot when that peer now yields data, while under the claim no
peer remains to try and the slot must stay empty. -/
theorem retry_reuses_primary_peer :
    retry_chunk [⟨"10.0.0.1", 6000⟩] (fun _ => some [7]) = some [7]
    ∧ retry_chunk_remaining_only ⟨"10.0.0.1", 6000⟩ [⟨"10.0.0.1", 6000⟩]
        (fun _ => some [7]) = none := by
  decide

lemma retry_chunk_eq (peers : List Peer) (fetch1 : Peer → Option (List Nat)) :
    retry_chunk peers fetch1
      = match peers.find? (fetchGood fetch1) with
        | some p => fetch1 p
        | none => none := by
  induction peers with
  | nil => rfl
  | cons p rest ih =>
    show (match fetch1 p with
      | some d => if d.isEmpty then retry_chunk rest fetch1 else some d
      | none => retry_chunk rest fetch1) = _
    cases hf : fetch1 p with
    | none =>
      have hfg : fetchGood fetch1 p = false := by unfold fetchGood; rw [hf]
      rw [List.find?_cons_of_neg _ (by simp [hfg])]
      exact ih
    | some d =>
      show (if d.isEmpty then retry_chunk rest fetch1 else some d) = _
      cases he : d.isEmpty with
      | true =>
        have hfg : fetchGood fetch1 p = false := by
          unfold fetchGood; rw [hf]; simp [he]
        rw [List.find?_cons_of_neg _ (by simp [hfg])]
        rw [if_pos rfl]
        exact ih
      | false =>
        have hfg : fetchGood fetch1 p = true := by
          unfold fetchGood; rw [hf]; simp [he]
        rw [List.find?_cons_of_pos _ hfg]
        rw [if_neg (by simp)]
        simp [hf]

lemma retry_pass_cons (c : Nat) (cs : List Nat) (avail : Int → List Peer)
    (fetch : Peer → Nat → Option (List Nat)) (slots : List (Option (List Nat))) :
    retry_pass (c :: cs) avail fetch slots
      = retry_pass cs avail fetch
          (match retry_chunk (avail (Int.ofNat c)) (fun p => fetch p c) with
            | some d => slots.set c (some d)
            | none => slots) := rfl

lemma retry_pass_not_mem (failed : List Nat) (avail : Int → List Peer)
    (fetch : Peer → Nat → Option (List Nat)) (slots : List (Option (List Nat)))
    (cid : Nat) (h : cid ∉ failed) :
    (retry_pass failed avail fetch slots)[cid]? = slots[cid]? := by
  induction failed generalizing slots with
  | nil => rfl
  | cons c cs ih =>
    have hc : c ≠ cid := fun he => h (he ▸ List.mem_cons_self c cs)
    have hcs : cid ∉ cs := fun hm => h (List.mem_cons_of_mem c hm)
    rw [retry_pass_cons]
    cases hr : retry_chunk (avail (Int.ofNat c)) (fun p => fetch p c) with
    | some d =>
      simp only [hr]
      rw [ih _ hcs, List.getElem?_set_ne hc]
    | none =>
      simp only [hr]
      exact ih _ hcs

/-- C6, amended: every failed chunk id is retried sequentially, walking the
chunk's full Availability-Index candidate list in order — the peer already
tried in the primary pass is NOT excluded — and stopping at the first peer
whose `download_chunk` yields (non-empty) data; the chunk's buffer slot ends
up holding that first success, and is left untouched exactly when every
candidate fails. -/
theorem retry_pass_fills_first_success (failed : List Nat)
    (avail : Int → List Peer) (fetch : Peer → Nat → Option (List Nat))
    (slots : List (Option (List Nat))) (cid : Nat)
    (hnd : failed.Nodup) (hmem : cid ∈ failed) (hlt : cid < slots.length) :
    (retry_pass failed avail fetch slots)[cid]?
      = match (avail (Int.ofNat cid)).find? (fetchGood (fun p => fetch p cid)) with
        | some p => some (fetch p cid)
        | none => slots[cid]? := by
  induction failed generalizing slots with
  | nil => cases hmem
  | cons c cs ih =>
    obtain ⟨hc, hcs⟩ := List.nodup_cons.mp hnd
    rw [retry_pass_cons]
    rcases List.mem_cons.mp hmem with heq | hmem'
    · subst heq
      rw [retry_chunk_eq]
      cases hfind : (avail (Int.ofNat cid)).find? (fetchGood (fun p => fetch p cid)) with
      | some p =>
        have hgood : fetchGood (fun p => fetch p cid) p = true :=
          List.find?_some hfind
        cases hf : fetch p cid with
        | none => simp [fetchGood, hf] at hgood
        | some d =>
          simp only [hfind, hf]
          rw [retry_pass_not_mem cs avail fetch _ cid hc]
          simp [List.getElem?_set_self, hlt]
      | none =>
        simp only [hfind]
        exact retry_pass_not_mem cs avail fetch _ cid hc
    · have hcne : c ≠ cid := fun he => hc (he ▸ hmem')
      cases hr : retry_chunk (avail (Int.ofNat c)) (fun p => fetch p c) with
      | some d =>
        simp only [hr]
        rw [ih _ hcs hmem' (by simpa using hlt)]
        rw [List.getElem?_set_ne hcne]
      | none =>
        simp only [hr]
        exact ih _ hcs hmem' hlt

/-- Witness for C6 on concrete data: chunk 0 is re-filled by its only
candidate, chunk 1 has no success and stays empty. -/
theorem retry_pass_fills_first_success_witness :
    (retry_pass [0, 1] (fun _ => [⟨"10.0.0.1", 6000⟩])
        (fun _ c => if c = 0 then some [5] else none) [none, none])[0]?
      = some (some [5]) :=
  (retry_pass_fills_first_success [0, 1] (fun _ => [⟨"10.0.0.1", 6000⟩])
    (fun _ c => if c = 0 then some [5] else none) [none, none] 0
    (by decide) (by decide) (by decide)).trans (by decide)

/-! ## Assembly and integrity verification (C7) -/

lemma fsRead_fsWrite (fs : FileSystem) (path : String) (c : List Nat) :
    fsRead (fsWrite fs path c) path = some c := by
  unfold fsRead fsWrite
  rw [List.find?_cons_of_pos _ (by simp)]
  rfl

lemma fsRead_fsRemove_self (fs : FileSystem) (path : String) :
    fsRead (fsRemove fs path) path = none := by
  unfold fsRead fsRemove
  induction fs with
  | nil => rfl
  | cons e rest ih =>
    rw [List.filter_cons]
    by_cases he : e.1 = path
    · rw [if_neg (by simp [he])]
      exact ih
    · rw [if_pos (by simp [he])]
      rw [List.find?_cons_of_neg _ (by simp [he])]
      exact ih

/-- C7: once all chunk slots are filled, the assembled bytes are written to
the output path and re-hashed; if the recomputed hash differs from the
expected content hash the outcome is `CorruptDiscarded` and the output file
no longer exists, and if it matches the outcome is `Complete` and the output
file holds exactly the assembled bytes. -/
theorem finalize_download_integrity (hashFn : List Nat → String)
    (fs : FileSystem) (out fh : String) (chunks : List (Option (List Nat)))
    (hcomplete : ¬ chunks.contains none = true) :
    (hashFn ((chunks.map (fun c => c.getD [])).flatten) ≠ fh →
        (finalize_download hashFn fs out fh chunks).2 = .corruptDiscarded
        ∧ fsRead (finalize_download hashFn fs out fh chunks).1 out = none)
    ∧ (hashFn ((chunks.map (fun c => c.getD [])).flatten) = fh →
        (finalize_download hashFn fs out fh chunks).2 = .complete
        ∧ fsRead (finalize_download hashFn fs out fh chunks).1 out
            = some ((chunks.map (fun c => c.getD [])).flatten)) := by
  unfold finalize_download
  rw [if_neg hcomplete]
  simp only [fsRead_fsWrite, Option.getD_some]
  constructor
  · intro hne
    rw [if_pos hne]
    exact ⟨rfl, fsRead_fsRemove_self _ _⟩
  · intro heq
    rw [if_neg (fun hh => hh heq)]
    exact ⟨rfl, fsRead_fsWrite _ _ _⟩

/-- Witness for C7: a matching hash keeps the file and completes. -/
theorem finalize_download_integrity_witness :
    (finalize_download (fun _ => "x") [] "o" "x" [some [1]]).2
        = DownloadResult.complete
    ∧ fsRead (finalize_download (fun _ => "x") [] "o" "x" [some [1]]).1 "o"
        = some (([some [1]].map (fun c => c.getD [])).flatten) :=
  (finalize_download_integrity (fun _ => "x") [] "o" "x" [some [1]]
    (by decide)).2 rfl

/-! ## Tracker registration (C9) -/

lemma updateFirstPeer_length (ps : List TrackerPeer) (ip : String) (port : Int)
    (cs : List Int) : (updateFirstPeer ps ip port cs).length = ps.length := by
  induction ps with
  | nil => rfl
  | cons p rest ih =>
    unfold updateFirstPeer
    by_cases hp : (p.ip == ip && p.port == port) = true
    · rw [if_pos hp]
      rfl
    · rw [if_neg hp, List.length_cons, List.length_cons, ih]

lemma updateFirstPeer_map_key (ps : List TrackerPeer) (ip : String) (port : Int)
    (cs : List Int) :
    (updateFirstPeer ps ip port cs).map (fun p => (p.ip, p.port))
      = ps.map (fun p => (p.ip, p.port)) := by
  induction ps with
  | nil => rfl
  | cons p rest ih =>
    unfold updateFirstPeer
    by_cases hp : (p.ip == ip && p.port == port) = true
    · rw [if_pos hp]
      simp
    · rw [if_neg hp, List.map_cons, List.map_cons, ih]

lemma updateFirstPeer_find (ps : List TrackerPeer) (ip : String) (port : Int)
    (cs : List Int)
    (hex : ∃ q ∈ ps, (q.ip == ip && q.port == port) = true) :
    (updateFirstPeer ps ip port cs).find?
        (fun p => p.ip == ip && p.port == port)
      = some ⟨ip, port, cs⟩ := by
  induction ps with
  | nil =>
    obtain ⟨q, hq, _⟩ := hex
    cases hq
  | cons p rest ih =>
    unfold updateFirstPeer
    by_cases hp : (p.ip == ip && p.port == port) = true
    · rw [if_pos hp]
      obtain ⟨h1, h2⟩ := Bool.and_eq_true_iff.mp hp
      have hip : p.ip = ip := by simpa using h1
      have hport : p.port = port := by simpa using h2
      have hhead : ((⟨p.ip, p.port, cs⟩ : TrackerPeer).ip == ip
          && (⟨p.ip, p.port, cs⟩ : TrackerPeer).port == port) = true := by
        simp [hip, hport]
      simp only [List.find?_cons, hhead]
      rw [show ({ p with chunks := cs } : TrackerPeer)
          = (⟨p.ip, p.port, cs⟩ : TrackerPeer) from rfl]
      rw [hip, hport]
    · have hpf : (p.ip == ip && p.port == port) = false := by
        simpa using hp
      rw [if_neg hp]
      simp only [List.find?_cons, hpf]
      apply ih
      obtain ⟨q, hq, hqp⟩ := hex
      rcases List.mem_cons.mp hq with heq | hmem
      · exact absurd (heq ▸ hqp) hp
      · exact ⟨q, hmem, hqp⟩

lemma regLookup_regSet (files : Registry) (h : String) (e : FileEntry)
    (hsome : (regLookup files h).isSome = true) :
    regLookup (regSet files h e) h = some e := by
  induction files with
  | nil => simp [regLookup] at hsome
  | cons kv rest ih =>
    unfold regLookup regSet at *
    rw [List.map_cons]
    by_cases hk : (kv.1 == h) = true
    · rw [if_pos hk]
      have hhead : (((kv.1, e) : String × FileEntry).1 == h) = true := hk
      simp only [List.find?_cons, hhead]
      rfl
    · have hkf : (kv.1 == h) = false := by simpa using hk
      rw [if_neg hk]
      simp only [List.find?_cons, hkf]
      apply ih
      simp only [List.find?_cons, hkf] at hsome
      exact hsome

/-- C9: registering a peer that is already present for a file (same
`(ip, port)`) never adds a second peer entry: the reported `peers_count` and
the stored peer list's length and `(ip, port)` identities are unchanged, and
the matching peer's chunk set is replaced in place by the newly advertised
one — so re-registering with the same chunk set is a no-op on the count, and
re-registering with a different chunk set updates in place. -/
theorem register_existing_peer (files : Registry) (req : RegisterRequest)
    (entry : FileEntry) (p0 : TrackerPeer)
    (hentry : regLookup files req.file_hash = some entry)
    (hp0 : p0 ∈ entry.peers) (hip : p0.ip = req.ip) (hport : p0.port = req.port) :
    ∃ entry2,
      regLookup (register files req).1 req.file_hash = some entry2
      ∧ (register files req).2.2 = entry.peers.length
      ∧ entry2.peers.length = entry.peers.length
      ∧ entry2.peers.map (fun p => (p.ip, p.port))
          = entry.peers.map (fun p => (p.ip, p.port))
      ∧ entry2.peers.find? (fun p => p.ip == req.ip && p.port == req.port)
          = some ⟨req.ip, req.port, req.chunks⟩ := by
  have hex : ∃ q ∈ entry.peers, (q.ip == req.ip && q.port == req.port) = true :=
    ⟨p0, hp0, by simp [hip, hport]⟩
  have hfind : (entry.peers.find?
      (fun p => p.ip == req.ip && p.port == req.port)).isSome :=
    List.find?_isSome.mpr hex
  obtain ⟨pf, hpf⟩ := Option.isSome_iff_exists.mp hfind
  have hreg : register files req
      = (regSet files req.file_hash
          { entry with
            peers := updateFirstPeer entry.peers req.ip req.port req.chunks },
        "Peer updated successfully",
        (updateFirstPeer entry.peers req.ip req.port req.chunks).length) := by
    unfold register
    rw [hentry]
    simp only [Option.isNone_some, Bool.false_eq_true, if_false]
    rw [hentry]
    simp only [Option.getD_some, hpf]
  refine ⟨{ entry with
      peers := updateFirstPeer entry.peers req.ip req.port req.chunks },
    ?_, ?_, ?_, ?_, ?_⟩
  · rw [hreg]
    exact regLookup_regSet files req.file_hash _ (by rw [hentry]; rfl)
  · rw [hreg]
    exact updateFirstPeer_length entry.peers req.ip req.port req.chunks
  · exact updateFirstPeer_length entry.peers req.ip req.port req.chunks
  · exact updateFirstPeer_map_key entry.peers req.ip req.port req.chunks
  · exact updateFirstPeer_find entry.peers req.ip req.port req.chunks hex

/-- Witness for C9: re-registering the sole peer of a file with a new chunk
set keeps `peers_count` at 1 and replaces the chunk set in place. -/
theorem register_existing_peer_witness :
    ∃ entry2,
      regLookup (register [("fh", ⟨"f", 10, [⟨"1.1.1.1", 5, [0]⟩]⟩)]
          ⟨"f", "fh", 10, [0, 1], "1.1.1.1", 5⟩).1 "fh" = some entry2
      ∧ (register [("fh", ⟨"f", 10, [⟨"1.1.1.1", 5, [0]⟩]⟩)]
          ⟨"f", "fh", 10, [0, 1], "1.1.1.1", 5⟩).2.2
          = (⟨"f", 10, [⟨"1.1.1.1", 5, [0]⟩]⟩ : FileEntry).peers.length
      ∧ entry2.peers.length
          = (⟨"f", 10, [⟨"1.1.1.1", 5, [0]⟩]⟩ : FileEntry).peers.length
      ∧ entry2.peers.map (fun p => (p.ip, p.port))
          = (⟨"f", 10, [⟨"1.1.1.1", 5, [0]⟩]⟩ : FileEntry).peers.map
              (fun p => (p.ip, p.port))
      ∧ entry2.peers.find? (fun p => p.ip == "1.1.1.1" && p.port == 5)
          = some ⟨"1.1.1.1", 5, [0, 1]⟩ :=
  register_existing_peer [("fh", ⟨"f", 10, [⟨"1.1.1.1", 5, [0]⟩]⟩)]
    ⟨"f", "fh", 10, [0, 1], "1.1.1.1", 5⟩ ⟨"f", 10, [⟨"1.1.1.1", 5, [0]⟩]⟩
    ⟨"1.1.1.1", 5, [0]⟩ (by decide) (by decide) rfl rfl
